import Mathlib

/-!
Shallow embedding of `films_organizer.py` (mlh86/films_organizer).

Pure structure of the program is translated directly from the source; all
network and filesystem effects are made explicit:
  * network responses are passed in as oracle values or oracle functions
    (the spec treats the scraping and query layer as an opaque external
    collaborator, so a provider call is modelled by the parsed value it
    would yield);
  * files written by a run are returned as explicit data (lists of rows or
    written lines);
  * the link-creating tree builders act on an explicit filesystem state
    `FS` holding real files, directories and link entries.
-/

namespace FilmsOrganizer

/-! ## Python string primitives

Kernel-computable models of the Python string methods the program uses:
`str.split(sep)`, `str.rstrip()` and `sep.join(parts)`. -/

/-- Worker for `pySplit`, walking the character list with explicit fuel
(the fuel is initialised above the input length, so the fuel-exhaustion
case is never reached). -/
def pySplitAux (sep : List Char) : Nat → List Char → List Char → List (List Char)
  | 0, rest, cur => [cur.reverse ++ rest]
  | fuel + 1, s, cur =>
    match s with
    | [] => [cur.reverse]
    | c :: rest =>
      if sep.isPrefixOf (c :: rest) then
        cur.reverse :: pySplitAux sep fuel ((c :: rest).drop sep.length) []
      else pySplitAux sep fuel rest (c :: cur)

/-- Model of Python `s.split(sep)` for a nonempty separator: splits at each
non-overlapping occurrence of `sep`, keeping empty pieces. -/
def pySplit (s : String) (sep : String) : List String :=
  if sep = "" then [s]
  else (pySplitAux sep.data (s.data.length + 1) s.data []).map (fun cs => ⟨cs⟩)

/-- Model of Python `s.rstrip()`: remove trailing whitespace. -/
def pyRStrip (s : String) : String :=
  ⟨(s.data.reverse.dropWhile Char.isWhitespace).reverse⟩

/-- Model of Python `sep.join(parts)`. -/
def pyJoin (sep : String) : List String → String
  | [] => ""
  | [x] => x
  | x :: xs => x ++ sep ++ pyJoin sep xs

/-! ## `_get_url` (source lines 363-374)

The loop `for i in range(3)` issues `requests.get` on every iteration and
never breaks out on success; `sys.exit()` is called exactly when the
iteration with `i == 2` raises.  The network is modelled by
`net : Nat -> Option String`: `net i = some r` means attempt `i` returns
response `r`, `net i = none` means attempt `i` raises. -/

/-- Outcome of `_get_url`: either the function returns (with the final value
of the `res` variable) or the process exits via `sys.exit()`.  The `requests`
field counts how many `requests.get` calls were issued. -/
inductive GetUrlOutcome where
  | ret (res : Option String) (requests : Nat)
  | exit (requests : Nat)
deriving DecidableEq, Repr

/-- One-to-one translation of the `for i in range(3)` loop of `_get_url`,
with `fuel` counting the remaining iterations (started at 3, in sync with
`i` started at 0). -/
def get_url_loop (net : Nat → Option String) : Nat → Nat → Option String → Nat → GetUrlOutcome
  | 0, _, res, reqs => .ret res reqs
  | fuel + 1, i, res, reqs =>
    match net i with
    | some r => get_url_loop net fuel (i + 1) (some r) (reqs + 1)
    | none =>
      if i = 2 then .exit (reqs + 1)
      else get_url_loop net fuel (i + 1) res (reqs + 1)

/-- Model of `_get_url(url)`: `res = None`, then three loop iterations. -/
def get_url (net : Nat → Option String) : GetUrlOutcome :=
  get_url_loop net 3 0 none 0

/-! ## Metadata providers (source lines 376-405) -/

/-- The metadata fields extracted by either provider and consumed by
`generate_films_index` (Director, Genre, Actors). -/
structure Metadata where
  director : String
  genre : String
  actors : String
deriving DecidableEq, Repr

/-- The parsed OMDB JSON reply as used by `_do_omdb_search`: the `Response`
field plus the three metadata fields. -/
structure OmdbResponse where
  responseFlag : String
  director : String
  genre : String
  actors : String
deriving DecidableEq, Repr

/-- Model of `_do_omdb_search` (lines 376-382): returns `None` when the reply has
`Response == 'False'`, otherwise the reply itself. -/
def do_omdb_search (resp : OmdbResponse) : Option Metadata :=
  if resp.responseFlag = "False" then none
  else some ⟨resp.director, resp.genre, resp.actors⟩

/-- Model of `_do_imdb_search` (lines 384-405): the scraped candidate list
`film_divs` is passed in already parsed (the spec treats provider parsing
as opaque).  The function returns `None` only when the list is empty and
otherwise extracts `film_divs[0]` -- the first candidate -- regardless of
how many candidates were found. -/
def do_imdb_search (film_divs : List Metadata) : Option Metadata :=
  match film_divs with
  | [] => none
  | d :: _ => some d

/-- The per-entry provider chain of `generate_films_index` (lines 188-199):
`metadata = None; if omdb_key: metadata = _do_omdb_search(...);
if not metadata: metadata = _do_imdb_search(...)`. -/
def resolve_metadata (omdb_key : String) (omdbResp : OmdbResponse)
    (imdbDivs : List Metadata) : Option Metadata :=
  let metadata := if omdb_key ≠ "" then do_omdb_search omdbResp else none
  match metadata with
  | some m => some m
  | none => do_imdb_search imdbDivs

/-! ## `generate_films_index` (source lines 133-213) -/

/-- A row of `base_index.tsv`: title, year, absolute path. -/
structure BaseRow where
  title : String
  year : String
  path : String
deriving DecidableEq, Repr

/-- A row of `films_index.tsv`: the six tab-separated fields. -/
structure FilmsRow where
  title : String
  year : String
  director : String
  genre : String
  actors : String
  path : String
deriving DecidableEq, Repr

/-- Rendering of one films-index row, the `"\t".join([...])` of line 201. -/
def renderFilmsRow (r : FilmsRow) : String :=
  pyJoin "\t" [r.title, r.year, r.director, r.genre, r.actors, r.path]

/-- Result of the key-acquisition prologue of `generate_films_index`
(lines 147-164): either the function returns early (invalid key entered)
or it proceeds with the value of the `omdb_key` variable (the empty string
meaning no OMDB service is used). -/
inductive KeySetupResult where
  | abort
  | proceed (omdb_key : String)
deriving DecidableEq, Repr

/-- Lines 147-164.  `keyFile` is the content of the `omdb_api_key` file when
it exists; `userInput` is the prompted key; `validationTitle` is the `Title`
field of the fixture query reply (`none` covering a raised exception or a
missing field).  An existing key file is used unvalidated; an empty input
skips validation and proceeds with an empty key; a nonempty input is
accepted only when the fixture query returns the title
`Gone with the Wind`, and otherwise the function returns. -/
def acquire_omdb_key (keyFile : Option String) (userInput : String)
    (validationTitle : Option String) : KeySetupResult :=
  match keyFile with
  | some k => .proceed k
  | none =>
    if userInput = "" then .proceed ""
    else if validationTitle = some "Gone with the Wind" then .proceed userInput
    else .abort

/-- Network oracle for one `generate_films_index` run: the parsed replies
each provider would give for a base-index entry. -/
structure GfiEnv where
  omdbNet : BaseRow → OmdbResponse
  imdbNet : BaseRow → List Metadata

/-- Metadata resolution for one base-index entry (lines 196-199). -/
def gfi_resolve (env : GfiEnv) (k : String) (r : BaseRow) : Option Metadata :=
  resolve_metadata k (env.omdbNet r) (env.imdbNet r)

/-- Accumulated output of the main loop of `generate_films_index`:
rows appended to `films_index.tsv`, rows written to the faulty file, and
the entries for which providers were actually queried. -/
structure GfiOut where
  newRows : List FilmsRow
  faulty : List BaseRow
  lookedUp : List BaseRow
deriving DecidableEq, Repr

/-- One iteration of the loop over `base_index.tsv` (lines 188-205):
entries whose path is in `processed_films` are skipped before any provider
is queried; otherwise the provider chain runs, a success is appended to the
films index and a failure to the faulty file. -/
def gfi_step (env : GfiEnv) (k : String) (processed : List String)
    (out : GfiOut) (r : BaseRow) : GfiOut :=
  if r.path ∈ processed then out
  else
    match gfi_resolve env k r with
    | some m =>
      { out with
        newRows := out.newRows ++ [⟨r.title, r.year, m.director, m.genre, m.actors, r.path⟩],
        lookedUp := out.lookedUp ++ [r] }
    | none =>
      { out with
        faulty := out.faulty ++ [r],
        lookedUp := out.lookedUp ++ [r] }

/-- The whole loop over the base index. -/
def gfi_process (env : GfiEnv) (k : String) (processed : List String)
    (base : List BaseRow) : GfiOut :=
  base.foldl (gfi_step env k processed) ⟨[], [], []⟩

/-- Merge mode of `generate_films_index` (the `--mode` option). -/
inductive GfiMode where
  | extend
  | overwrite
deriving DecidableEq, Repr

/-- The `processed_films` set (lines 176-183): populated from the existing
films index only in extend mode when that file exists, using the last
tab-separated field (the path) of each row. -/
def gfi_processed (mode : GfiMode) (existing : Option (List FilmsRow)) : List String :=
  match mode with
  | .overwrite => []
  | .extend =>
    match existing with
    | some rows => rows.map (·.path)
    | none => []

/-- Final state of one `generate_films_index` run: the content of
`films_index.tsv`, the faulty side file (`none` when it was removed because
it was empty, lines 208-209), and the entries that were looked up. -/
structure GfiResult where
  store : List FilmsRow
  faultyFile : Option (List BaseRow)
  lookedUp : List BaseRow
deriving DecidableEq, Repr

/-- Overall outcome of `generate_films_index`: the early return on an
invalid entered key (line 164), the early return when `base_index.tsv` is
missing (lines 172-174), or a completed run. -/
inductive GfiOutcome where
  | abortedInvalidKey
  | missingBaseIndex
  | completed (res : GfiResult)
deriving DecidableEq, Repr

/-- Model of `generate_films_index` (lines 133-213).  `existing` is the
content of an existing `films_index.tsv` (or `none`); `base` the content of
`base_index.tsv` (or `none`).  In extend mode the store is opened in append
mode, so the existing rows are kept verbatim and new rows are appended; in
overwrite mode (or when no store exists) the store is exactly the new rows.
The faulty file is always opened for (truncating) writing and removed at
the end when empty. -/
def generate_films_index (env : GfiEnv) (keyFile : Option String)
    (userInput : String) (validationTitle : Option String) (mode : GfiMode)
    (existing : Option (List FilmsRow)) (base : Option (List BaseRow)) : GfiOutcome :=
  match acquire_omdb_key keyFile userInput validationTitle with
  | .abort => .abortedInvalidKey
  | .proceed k =>
    match base with
    | none => .missingBaseIndex
    | some baseRows =>
      let processed := gfi_processed mode existing
      let out := gfi_process env k processed baseRows
      let store :=
        match mode with
        | .overwrite => out.newRows
        | .extend =>
          match existing with
          | some rows => rows ++ out.newRows
          | none => out.newRows
      .completed ⟨store, if out.faulty = [] then none else some out.faulty, out.lookedUp⟩

/-! ## Filesystem model for the link-tree builders

`create_films_tree` (lines 216-257) and `populate_actors_tree`
(lines 310-358) both `os.chdir` into the tree root and then work with paths
relative to it.  Paths are modelled structurally as component lists, so
`os.path.join(a, b)` is list append and `os.path.basename` is the last
component; the filesystem under consideration is an explicit state of real
files (the link targets, given by absolute component paths), directories,
and link entries.  A link entry resolves when its target is a real file;
this covers a fresh hard link (whose target must exist at creation) and a
symbolic link alike in the regime where the run never deletes targets. -/

/-- A filesystem path as its list of components. -/
abbrev FPath := List String

/-- Explicit filesystem state seen by the tree builders. -/
structure FS where
  base : List FPath
  dirs : List FPath
  links : List (FPath × FPath)
deriving DecidableEq, Repr

/-- Model of `os.path.exists(p)` (follows links): `p` is a real file, a
directory, or a link entry whose target is a real file. -/
def existsFS (fs : FS) (p : FPath) : Bool :=
  decide (p ∈ fs.base) || decide (p ∈ fs.dirs) ||
    fs.links.any (fun e => decide (e.1 = p) && decide (e.2 ∈ fs.base))

/-- Model of `os.path.lexists(p)` (does not follow links): `p` is a real
file, a directory, or the path of a link entry, dangling or not. -/
def lexistsFS (fs : FS) (p : FPath) : Bool :=
  decide (p ∈ fs.base) || decide (p ∈ fs.dirs) || fs.links.any (fun e => decide (e.1 = p))

/-- Model of `os.remove(p)` on a link path. -/
def removeLink (fs : FS) (p : FPath) : FS :=
  { fs with links := fs.links.filter (fun e => decide (e.1 ≠ p)) }

/-- Creation of a link at `linkpath` pointing to `target`
(`os.link` / `os.symlink`). -/
def addLink (fs : FS) (linkpath target : FPath) : FS :=
  { fs with links := fs.links ++ [(linkpath, target)] }

/-- The link-creation step shared by both tree builders
(lines 254-257 and 355-358):
`if not exists(linkpath): (if lexists(linkpath): remove(linkpath));
create_link(filmpath, linkpath)`.  The boolean reports whether a
`create_link` call was issued. -/
def ensure_link (fs : FS) (target linkpath : FPath) : FS × Bool :=
  if existsFS fs linkpath then (fs, false)
  else if lexistsFS fs linkpath then (addLink (removeLink fs linkpath) linkpath target, true)
  else (addLink fs linkpath target, true)

/-- The directory step of both builders:
`if not os.path.exists(d): os.mkdir(d)`. -/
def ensure_dir (fs : FS) (d : FPath) : FS :=
  if existsFS fs d then fs else { fs with dirs := fs.dirs ++ [d] }

/-- Model of `os.path.basename`: the last path component. -/
def basenameP (p : FPath) : String :=
  p.getLastD ""

/-! ## `create_films_tree` (source lines 216-257) -/

/-- A row of `films_index.tsv` as read back by `create_films_tree`
(line 242), with the film path kept structural. -/
structure TreeRow where
  director : String
  genre : String
  actors : String
  path : FPath
deriving DecidableEq, Repr

/-- The `--type` argument of `create_films_tree`. -/
inductive TreeType where
  | director
  | genre
  | actor
deriving DecidableEq, Repr

/-- Field selection of lines 244-249. -/
def treeField (ty : TreeType) (r : TreeRow) : String :=
  match ty with
  | .director => r.director
  | .genre => r.genre
  | .actor => r.actors

/-- The group values of a row: the selected field split on the fixed
separator (line 250, `data.split(", ")`). -/
def treeGroups (ty : TreeType) (r : TreeRow) : List String :=
  pySplit (treeField ty r) ", "

/-- Processing of one group value `datum` for one film (lines 251-257):
ensure the group directory, then ensure the link
`os.path.join(datum, base_filmname)` targeting the film path.  The counter
tracks issued `create_link` calls (ghost instrumentation used to state
idempotence; the source keeps no counter). -/
def cft_pair (target : FPath) (bn : String) (acc : FS × Nat) (datum : String) : FS × Nat :=
  let fs1 := ensure_dir acc.1 [datum]
  let r := ensure_link fs1 target [datum, bn]
  (r.1, acc.2 + if r.2 then 1 else 0)

/-- Processing of one films-index row (lines 241-257). -/
def cft_row (ty : TreeType) (acc : FS × Nat) (row : TreeRow) : FS × Nat :=
  (treeGroups ty row).foldl (cft_pair row.path (basenameP row.path)) acc

/-- Model of the main loop of `create_films_tree`. -/
def create_films_tree (ty : TreeType) (fs : FS) (rows : List TreeRow) : FS × Nat :=
  rows.foldl (cft_row ty) (fs, 0)

/-! ## `populate_actors_tree` (source lines 310-358) -/

/-- Lookup in the `films_dict` built on lines 329-333: the dictionary is
keyed by `(filmyear, filmname)` with a later base-index row overwriting an
earlier one with the same key, so lookup finds the last row whose year and
title both match exactly. -/
def films_dict_lookup (baseRows : List BaseRow) (fyear fname : String) : Option String :=
  (baseRows.reverse.find? (fun r => decide (r.year = fyear) && decide (r.title = fname))).map (·.path)

/-- One `rating|year|title` triple of an actor filmography row
(line 346). -/
structure FilmographyEntry where
  rating : String
  fyear : String
  fname : String
deriving DecidableEq, Repr

/-- Processing of one filmography entry (lines 345-358).  `pathOfString`
converts the stored string path of the base index into the structural path
of the filesystem model; an unmatched identity leaves the state untouched
(no message is printed and nothing is recorded).  On a match the actor
directory is ensured and the link named from the base filename, with the
bracketed rating prepended when `--include_ratings` is set. -/
def pat_step (include_ratings : Bool) (baseRows : List BaseRow)
    (pathOfString : String → FPath) (actor_name : String)
    (acc : FS × Nat) (e : FilmographyEntry) : FS × Nat :=
  match films_dict_lookup baseRows e.fyear e.fname with
  | none => acc
  | some filmpathStr =>
    let filmpath := pathOfString filmpathStr
    let base_filmname :=
      if include_ratings then "[" ++ e.rating ++ "] " ++ basenameP filmpath
      else basenameP filmpath
    let fs1 := ensure_dir acc.1 [actor_name]
    let r := ensure_link fs1 filmpath [actor_name, base_filmname]
    (r.1, acc.2 + if r.2 then 1 else 0)

/-- Processing of one actor row of `actors_filmography.tsv`
(lines 342-358). -/
def pat_actor (include_ratings : Bool) (baseRows : List BaseRow)
    (pathOfString : String → FPath) (acc : FS × Nat)
    (actor_name : String) (films : List FilmographyEntry) : FS × Nat :=
  films.foldl (pat_step include_ratings baseRows pathOfString actor_name) acc

/-! ## `generate_base_index` (source lines 89-130) and the generator
truthiness of its emptiness guard (and the one of `normalize_film_files`,
lines 48-51) -/

/-- A film file as enumerated by `Path(glob_path).rglob("*")` after the
extension filter: its stem (filename without extension) and its absolute
path. -/
structure ScannedFile where
  stem : String
  abspath : String
deriving DecidableEq, Repr

/-- CPython semantics of the truth value of a generator object: `film_files`
on lines 48 and 106 is a generator expression, and `bool(g)` for a
generator object `g` is `True` whatever the generator would yield, because
generators define neither `__bool__` nor `__len__`.  The underlying item
list is therefore ignored. -/
def genObjTruthy (_items : List α) : Bool :=
  true

/-- The emptiness guard of `normalize_film_files` (line 49,
`if not film_files`), evaluated on the generator object. -/
def nff_finds_no_files (film_files : List ScannedFile) : Bool :=
  !genObjTruthy film_files

/-- The regex step: `filmname_pattern.match(filepath.stem)` together with
the group extraction of lines 117-118 is modelled by a pluggable parse
function from the stem to the `filmname` and `year` groups (the regex is a
user-supplied pattern).  The `.rstrip()` of line 117 is applied by the
caller below. -/
abbrev StemParse := String → Option (String × String)

/-- State of the writing loop of `generate_base_index` (lines 111-130):
rows written so far, the written lines exactly as passed to `write`, the
`films_set` dedup set, reported duplicates, unparsed files, and the
`numfilms` counter. -/
structure GbiState where
  rows : List BaseRow
  written : List String
  films_set : List (String × String)
  skipped : List String
  unparsed : List String
  numfilms : Nat
deriving DecidableEq, Repr

/-- One iteration of the loop over the film files (lines 114-129). -/
def gbi_step (parse : StemParse) (nodups : Bool) (st : GbiState) (f : ScannedFile) : GbiState :=
  match parse f.stem with
  | none => { st with unparsed := st.unparsed ++ [f.abspath] }
  | some (fname0, fyear) =>
    let fname := pyRStrip fname0
    if nodups && decide ((fname, fyear) ∈ st.films_set) then
      { st with skipped := st.skipped ++ [f.abspath] }
    else
      { st with
        rows := st.rows ++ [⟨fname, fyear, f.abspath⟩],
        written := st.written ++ [fname ++ "\t" ++ fyear ++ "\t" ++ f.abspath ++ "\n"],
        films_set := if nodups then st.films_set ++ [(fname, fyear)] else st.films_set,
        numfilms := st.numfilms + 1 }

/-- The full writing loop from the empty state. -/
def gbi_scan (parse : StemParse) (nodups : Bool) (files : List ScannedFile) : GbiState :=
  files.foldl (gbi_step parse nodups) ⟨[], [], [], [], [], 0⟩

/-- Rendering of one base-index line as written on line 126. -/
def renderBaseLine (r : BaseRow) : String :=
  r.title ++ "\t" ++ r.year ++ "\t" ++ r.path ++ "\n"

/-- Model of `generate_base_index` (lines 89-130): `none` is the early
return of the `No film files found` branch (lines 107-109), whose test is
evaluated on the generator object; otherwise `base_index.tsv` is created
(truncating any previous content) and the loop runs. -/
def generate_base_index (parse : StemParse) (nodups : Bool)
    (files : List ScannedFile) : Option GbiState :=
  if !genObjTruthy files then none
  else some (gbi_scan parse nodups files)

/-! ## Derived notions used by the statements and proofs -/

/-- The skip test of line 191 as a filter predicate: an entry is kept (its
metadata is looked up) exactly when its path is not in `processed_films`. -/
def gfi_keep (processed : List String) (r : BaseRow) : Bool :=
  decide (r.path ∉ processed)

/-- The films-index row written on lines 201-202 for a resolved entry. -/
def gfi_rowOf (r : BaseRow) (m : Metadata) : FilmsRow :=
  ⟨r.title, r.year, m.director, m.genre, m.actors, r.path⟩

/-- The (title, year) identity a scanned file contributes to the base
index: the parsed groups with `rstrip` applied to the film name
(line 117). -/
def parseIdOf (parse : StemParse) (f : ScannedFile) : Option (String × String) :=
  (parse f.stem).map (fun q => (pyRStrip q.1, q.2))

/-- All links and group directories demanded by one films-index row are in
place in filesystem state `g`. -/
def treeDone (g : FS) (ty : TreeType) (r : TreeRow) : Prop :=
  ∀ d ∈ treeGroups ty r,
    existsFS g [d] = true ∧ existsFS g [d, basenameP r.path] = true

/-- A link entry has the shape produced by `create_films_tree` on `rows`:
its path is a group directory joined with the base filename of some row and
its target is the path of that row. -/
def linkShape (rows : List TreeRow) (e : FPath × FPath) : Prop :=
  ∃ r ∈ rows, ∃ d : String, e.1 = [d, basenameP r.path] ∧ e.2 = r.path

/-- Invariant maintained by `create_films_tree` when started on a tree root
with no pre-existing links and no pre-existing directories: real files are
untouched, every directory is a single-component group directory, and
every link entry has the produced shape. -/
def cftInv (fs0 : FS) (rows : List TreeRow) (g : FS) : Prop :=
  g.base = fs0.base ∧ (∀ p ∈ g.dirs, p.length = 1) ∧ (∀ e ∈ g.links, linkShape rows e)

/-- Loop invariant of `generate_base_index` with dedup enabled, after the
files `ps` have been consumed: the dedup set holds exactly the identities
of the written rows, row identities are pairwise distinct, every written
row carries the path of the first file of its identity, every consumed
parsed file has its identity in the set, and rows plus skipped duplicates
account exactly for the parsed files. -/
def GbiInv (parse : StemParse) (ps : List ScannedFile) (st : GbiState) : Prop :=
  (∀ i : String × String, i ∈ st.films_set ↔ i ∈ st.rows.map (fun r => (r.title, r.year))) ∧
  (st.rows.map (fun r => (r.title, r.year))).Nodup ∧
  (∀ r ∈ st.rows, ∃ f,
    ps.find? (fun g => decide (parseIdOf parse g = some (r.title, r.year))) = some f ∧
      f.abspath = r.path) ∧
  (∀ g ∈ ps, ∀ i, parseIdOf parse g = some i → i ∈ st.films_set) ∧
  (st.rows.length + st.skipped.length = (ps.filter (fun f => (parse f.stem).isSome)).length)

/-! ## Concrete sample inputs used by witnesses -/

/-- Sample network oracle: OMDB replies successfully with the Titanic
metadata; IMDB returns one candidate. -/
def wEnv : GfiEnv :=
  ⟨fun _ => ⟨"True", "James Cameron", "Drama, Romance", "Kate Winslet, Leonardo DiCaprio"⟩,
    fun _ => [⟨"James Cameron", "Drama, Romance", "Kate Winslet, Leonardo DiCaprio"⟩]⟩

/-- Sample base index with a single film. -/
def wBase : List BaseRow := [⟨"Titanic", "1997", "/lib/Titanic.mkv"⟩]

/-- Sample existing films index holding the resolved Titanic row. -/
def wFilms : List FilmsRow :=
  [⟨"Titanic", "1997", "James Cameron", "Drama, Romance",
    "Kate Winslet, Leonardo DiCaprio", "/lib/Titanic.mkv"⟩]

/-- Sample filesystem: the tree root is fresh and the film file exists. -/
def wFS : FS := ⟨[["lib", "Titanic.mkv"]], [], []⟩

/-- Sample films-index rows as read back by `create_films_tree`. -/
def wTreeRows : List TreeRow :=
  [⟨"James Cameron", "Drama, Romance", "Kate Winslet, Leonardo DiCaprio",
    ["lib", "Titanic.mkv"]⟩]

/-- Conversion of a stored absolute path string to its component list, as
used to feed base-index paths into the filesystem model. -/
def wPathOf (s : String) : FPath :=
  (pySplit s "/").filter (fun c => decide (c ≠ ""))

/-- Sample parse function: the behavior of the default filename regex on
the stems occurring in `wFiles`. -/
def wParse : StemParse :=
  fun s => if s = "(1997) Titanic" then some ("Titanic ", "1997") else none

/-- Sample scanned files: two files with the same identity and one that
does not parse. -/
def wFiles : List ScannedFile :=
  [⟨"(1997) Titanic", "/a/(1997) Titanic.mkv"⟩,
    ⟨"(1997) Titanic", "/b/(1997) Titanic.mkv"⟩,
    ⟨"junk", "/c/junk.mkv"⟩]

/-! # Theorems -/

/-! ## Generic lemmas about the `generate_films_index` loop -/

/-- The main loop of `generate_films_index`, started from an arbitrary
accumulator, appends exactly the filtered and resolved data of the
remaining base-index entries. -/
theorem gfi_fold_spec (env : GfiEnv) (k : String) (processed : List String)
    (bs : List BaseRow) (out : GfiOut) :
    bs.foldl (gfi_step env k processed) out =
      ⟨out.newRows ++ (bs.filter (gfi_keep processed)).filterMap
          (fun r => (gfi_resolve env k r).map (gfi_rowOf r)),
        out.faulty ++ (bs.filter (gfi_keep processed)).filter
          (fun r => (gfi_resolve env k r).isNone),
        out.lookedUp ++ bs.filter (gfi_keep processed)⟩ := by
  induction bs generalizing out with
  | nil => simp
  | cons r bs ih =>
    by_cases hp : r.path ∈ processed
    · have hk : gfi_keep processed r = false := by simp [gfi_keep, hp]
      rw [List.foldl_cons, ih]
      simp [gfi_step, hp, List.filter_cons, hk]
    · have hk : gfi_keep processed r = true := by simp [gfi_keep, hp]
      cases hr : gfi_resolve env k r with
      | some m =>
        rw [List.foldl_cons, ih]
        simp [gfi_step, hp, hr, gfi_rowOf, List.filter_cons, List.filterMap_cons, hk]
      | none =>
        rw [List.foldl_cons, ih]
        simp [gfi_step, hp, hr, List.filter_cons, List.filterMap_cons, hk]

/-- Entries looked up by the loop: exactly the kept entries, in order. -/
theorem gfi_process_lookedUp (env : GfiEnv) (k : String) (processed : List String)
    (bs : List BaseRow) :
    (gfi_process env k processed bs).lookedUp = bs.filter (gfi_keep processed) := by
  unfold gfi_process
  rw [gfi_fold_spec]
  simp

/-- Rows appended to the films index by the loop. -/
theorem gfi_process_newRows (env : GfiEnv) (k : String) (processed : List String)
    (bs : List BaseRow) :
    (gfi_process env k processed bs).newRows =
      (bs.filter (gfi_keep processed)).filterMap
        (fun r => (gfi_resolve env k r).map (gfi_rowOf r)) := by
  unfold gfi_process
  rw [gfi_fold_spec]
  simp

/-- Rows written to the faulty side file by the loop. -/
theorem gfi_process_faulty (env : GfiEnv) (k : String) (processed : List String)
    (bs : List BaseRow) :
    (gfi_process env k processed bs).faulty =
      (bs.filter (gfi_keep processed)).filter (fun r => (gfi_resolve env k r).isNone) := by
  unfold gfi_process
  rw [gfi_fold_spec]
  simp

/-! ## C1 -/

/-- C1: evaluation of `_get_url` at two failing network behaviors.  When
every attempt succeeds, three requests are still issued (the claim says a
successful attempt performs no further requests); when the first two
attempts succeed and the third raises, the run aborts via `sys.exit` (the
claim says the run aborts only after three consecutive failures and never
when some attempt succeeded). -/
theorem get_url_no_break_eval :
    get_url (fun _ => some "response") = .ret (some "response") 3 ∧
    get_url (fun i => if i = 2 then none else some "response") = .exit 3 :=
  ⟨rfl, rfl⟩

/-! ## C10 -/

/-- C10: the `No film files found` early return of `generate_base_index`
(and the matching guard in `normalize_film_files`) is unreachable, because
the test is applied to a generator object, which is always truthy; for
every file list, including the empty one, the index file is written and
the count reported (`0` entries for an empty directory). -/
theorem gbi_guard_unreachable :
    (∀ films : List ScannedFile, nff_finds_no_files films = false) ∧
    (∀ (parse : StemParse) (nodups : Bool) (files : List ScannedFile),
      generate_base_index parse nodups files = some (gbi_scan parse nodups files)) ∧
    (∀ (parse : StemParse) (nodups : Bool),
      generate_base_index parse nodups [] = some ⟨[], [], [], [], [], 0⟩) :=
  ⟨fun _ => rfl, fun _ _ _ => rfl, fun _ _ => rfl⟩

/-! ## C3 -/

/-- C3 counterexample: with two scraped IMDB candidates (an ambiguous
outcome in the sense of the claim), `_do_imdb_search` returns the first
candidate instead of falling through, and the resolver accepts it; the
claimed ambiguous-means-fallthrough rule is therefore false on the code. -/
theorem imdb_ambiguity_counterexample :
    do_imdb_search
        [⟨"Director One", "Drama", "Cast One"⟩, ⟨"Director Two", "Comedy", "Cast Two"⟩]
      = some ⟨"Director One", "Drama", "Cast One"⟩ ∧
    (⟨"Director One", "Drama", "Cast One"⟩ : Metadata)
      ≠ ⟨"Director Two", "Comedy", "Cast Two"⟩ ∧
    resolve_metadata "somekey" ⟨"False", "", "", ""⟩
        [⟨"Director One", "Drama", "Cast One"⟩, ⟨"Director Two", "Comedy", "Cast Two"⟩]
      = some ⟨"Director One", "Drama", "Cast One"⟩ :=
  ⟨rfl, by decide, by decide⟩

/-- C3 amended: the resolver tries OMDB first (when a key is present) and
falls through to the IMDB search exactly when OMDB signals no match
(`Response == False`) or no key is present; the IMDB provider falls
through only on an empty candidate list and otherwise accepts its first
candidate, with no ambiguity detection. -/
theorem resolver_order_and_acceptance (k : String) (resp : OmdbResponse)
    (divs : List Metadata) (d : Metadata) (rest : List Metadata) (hk : k ≠ "") :
    (resp.responseFlag ≠ "False" →
      resolve_metadata k resp divs = some ⟨resp.director, resp.genre, resp.actors⟩) ∧
    (resp.responseFlag = "False" →
      resolve_metadata k resp divs = do_imdb_search divs) ∧
    resolve_metadata "" resp divs = do_imdb_search divs ∧
    do_imdb_search ([] : List Metadata) = none ∧
    do_imdb_search (d :: rest) = some d := by
  refine ⟨fun h => ?_, fun h => ?_, ?_, rfl, rfl⟩
  · simp [resolve_metadata, do_omdb_search, hk, h]
  · simp [resolve_metadata, do_omdb_search, hk, h]
  · simp [resolve_metadata]

/-- C3 witness: the amended resolver-ordering theorem applied at concrete
inputs. -/
theorem resolver_order_and_acceptance_witness :
    ("key" : String) ≠ "" ∧
    ((("True" : String) ≠ "False" →
      resolve_metadata "key" ⟨"True", "D", "G", "A"⟩ [⟨"X", "Y", "Z"⟩]
        = some ⟨"D", "G", "A"⟩) ∧
    (("True" : String) = "False" →
      resolve_metadata "key" ⟨"True", "D", "G", "A"⟩ [⟨"X", "Y", "Z"⟩]
        = do_imdb_search [⟨"X", "Y", "Z"⟩]) ∧
    resolve_metadata "" ⟨"True", "D", "G", "A"⟩ [⟨"X", "Y", "Z"⟩]
      = do_imdb_search [⟨"X", "Y", "Z"⟩] ∧
    do_imdb_search ([] : List Metadata) = none ∧
    do_imdb_search ((⟨"X", "Y", "Z"⟩ : Metadata) :: ([] : List Metadata))
      = some ⟨"X", "Y", "Z"⟩) :=
  ⟨by decide,
    resolver_order_and_acceptance "key" ⟨"True", "D", "G", "A"⟩
      [⟨"X", "Y", "Z"⟩] ⟨"X", "Y", "Z"⟩ [] (by decide)⟩

/-! ## C2 -/

/-- C2 counterexample: with a nonempty entered key and a fixture reply
that is not `Gone with the Wind`, `generate_films_index` returns
immediately -- it does not degrade to the IMDB provider and processes no
base-index entry, contradicting the claim. -/
theorem gfi_invalid_key_counterexample :
    generate_films_index wEnv none "not-a-real-key" (some "Some Other Film")
        .overwrite none (some wBase)
      = .abortedInvalidKey := by decide

/-- C2 amended: when the prompted-for key is entered nonempty and fails
the fixture validation, the whole run aborts before processing any entry;
the run degrades to the IMDB-only provider chain while still processing
every base-index entry only when the user enters an empty key. -/
theorem gfi_key_validation_behavior (env : GfiEnv) (input : String)
    (vt : Option String) (mode : GfiMode) (existing : Option (List FilmsRow))
    (base : Option (List BaseRow)) (bs : List BaseRow)
    (hin : input ≠ "") (hvt : vt ≠ some "Gone with the Wind") :
    generate_films_index env none input vt mode existing base = .abortedInvalidKey ∧
    (∃ res, generate_films_index env none "" vt .overwrite existing (some bs)
        = .completed res ∧ res.lookedUp = bs) ∧
    (∀ r : BaseRow, gfi_resolve env "" r = do_imdb_search (env.imdbNet r)) := by
  refine ⟨?_, ?_, ?_⟩
  · unfold generate_films_index acquire_omdb_key
    simp [hin, hvt]
  · refine ⟨_, rfl, ?_⟩
    show (gfi_process env "" (gfi_processed .overwrite existing) bs).lookedUp = bs
    rw [gfi_process_lookedUp]
    exact List.filter_eq_self.mpr (fun r _ => by simp [gfi_keep, gfi_processed])
  · intro r
    simp [gfi_resolve, resolve_metadata]

/-- C2 witness: the amended key-validation theorem applied at concrete
inputs. -/
theorem gfi_key_validation_behavior_witness :
    ("bad" : String) ≠ "" ∧
    (some "Nope" : Option String) ≠ some "Gone with the Wind" ∧
    (generate_films_index wEnv none "bad" (some "Nope") .overwrite none (some wBase)
        = .abortedInvalidKey ∧
    (∃ res, generate_films_index wEnv none "" (some "Nope") .overwrite none (some wBase)
        = .completed res ∧ res.lookedUp = wBase) ∧
    (∀ r : BaseRow, gfi_resolve wEnv "" r = do_imdb_search (wEnv.imdbNet r))) :=
  ⟨by decide, by decide,
    gfi_key_validation_behavior wEnv "bad" (some "Nope") .overwrite none
      (some wBase) wBase (by decide) (by decide)⟩

/-! ## C4 -/

/-- C4: in extend mode with an existing store, metadata is resolved
exactly for the base-index entries whose path is absent from the path set
of the existing store (membership is by path), the existing rows are
preserved verbatim as a prefix with the new rows appended, and when every
base-index path is already present the resulting store (and its rendered
byte content) is identical to the prior store. -/
theorem gfi_extend_merge (env : GfiEnv) (k u : String) (vt : Option String)
    (rows : List FilmsRow) (bs : List BaseRow) :
    ∃ res, generate_films_index env (some k) u vt .extend (some rows) (some bs)
        = .completed res ∧
      res.lookedUp = bs.filter (fun r => decide (r.path ∉ rows.map FilmsRow.path)) ∧
      (∃ newRows, res.store = rows ++ newRows) ∧
      ((∀ r ∈ bs, r.path ∈ rows.map FilmsRow.path) →
        res.store = rows ∧ res.store.map renderFilmsRow = rows.map renderFilmsRow) := by
  refine ⟨_, rfl, ?_, ⟨_, rfl⟩, ?_⟩
  · show (gfi_process env k (gfi_processed .extend (some rows)) bs).lookedUp = _
    rw [gfi_process_lookedUp]
    rfl
  · intro h
    have hfilter : bs.filter (gfi_keep (gfi_processed .extend (some rows))) = [] := by
      rw [List.filter_eq_nil_iff]
      intro r hr
      simp only [gfi_keep, gfi_processed, decide_eq_true_eq, Decidable.not_not]
      exact h r hr
    have hnew : (gfi_process env k (gfi_processed .extend (some rows)) bs).newRows = [] := by
      rw [gfi_process_newRows, hfilter]
      rfl
    have hstore : rows ++ (gfi_process env k (gfi_processed .extend (some rows)) bs).newRows
        = rows := by
      rw [hnew, List.append_nil]
    exact ⟨hstore, congrArg (List.map renderFilmsRow) hstore⟩

/-- C4 witness: the extend-merge theorem applied at concrete inputs. -/
theorem gfi_extend_merge_witness :
    ∃ res, generate_films_index wEnv (some "key") "" none .extend (some wFilms) (some wBase)
        = .completed res ∧
      res.lookedUp = wBase.filter (fun r => decide (r.path ∉ wFilms.map FilmsRow.path)) ∧
      (∃ newRows, res.store = wFilms ++ newRows) ∧
      ((∀ r ∈ wBase, r.path ∈ wFilms.map FilmsRow.path) →
        res.store = wFilms ∧ res.store.map renderFilmsRow = wFilms.map renderFilmsRow) :=
  gfi_extend_merge wEnv "key" "" none wFilms wBase

/-! ## C5 -/

/-- C5: after a completed `generate_films_index` run, the faulty side file
is present exactly when some looked-up entry failed to resolve through the
provider chain, and then it holds exactly the (title, year, path) rows of
the failed entries of that run, in order; when no entry failed the file is
removed. -/
theorem gfi_faulty_lifecycle (env : GfiEnv) (k u : String) (vt : Option String)
    (mode : GfiMode) (existing : Option (List FilmsRow)) (bs : List BaseRow) :
    ∃ res, generate_films_index env (some k) u vt mode existing (some bs)
        = .completed res ∧
      res.faultyFile =
        (if (bs.filter (gfi_keep (gfi_processed mode existing))).filter
            (fun r => (gfi_resolve env k r).isNone) = [] then none
          else some ((bs.filter (gfi_keep (gfi_processed mode existing))).filter
            (fun r => (gfi_resolve env k r).isNone))) ∧
      (res.faultyFile.isSome = true ↔
        ∃ r ∈ bs, gfi_keep (gfi_processed mode existing) r = true ∧
          gfi_resolve env k r = none) := by
  refine ⟨_, rfl, ?_, ?_⟩
  · show (if (gfi_process env k (gfi_processed mode existing) bs).faulty = [] then none
        else some ((gfi_process env k (gfi_processed mode existing) bs).faulty)) = _
    rw [gfi_process_faulty]
  · show (if (gfi_process env k (gfi_processed mode existing) bs).faulty = [] then none
        else some ((gfi_process env k (gfi_processed mode existing) bs).faulty)).isSome
          = true ↔ _
    rw [gfi_process_faulty]
    by_cases hL : (bs.filter (gfi_keep (gfi_processed mode existing))).filter
        (fun r => (gfi_resolve env k r).isNone) = []
    · rw [if_pos hL]
      simp only [Option.isSome_none, Bool.false_eq_true, false_iff]
      rintro ⟨r, hr, hkeep, hnone⟩
      have hmem : r ∈ (bs.filter (gfi_keep (gfi_processed mode existing))).filter
          (fun r => (gfi_resolve env k r).isNone) := by
        rw [List.mem_filter]
        refine ⟨List.mem_filter.mpr ⟨hr, hkeep⟩, ?_⟩
        rw [hnone]
        rfl
      rw [hL] at hmem
      exact absurd hmem (List.not_mem_nil r)
    · rw [if_neg hL]
      simp only [Option.isSome_some, true_iff]
      obtain ⟨r, hmem⟩ := List.exists_mem_of_ne_nil _ hL
      rw [List.mem_filter] at hmem
      obtain ⟨hmem1, hnone⟩ := hmem
      rw [List.mem_filter] at hmem1
      exact ⟨r, hmem1.1, hmem1.2, Option.isNone_iff_eq_none.mp hnone⟩

/-- C5 witness: the faulty-file lifecycle theorem applied at concrete
inputs. -/
theorem gfi_faulty_lifecycle_witness :
    ∃ res, generate_films_index wEnv (some "key") "" none .overwrite none (some wBase)
        = .completed res ∧
      res.faultyFile =
        (if (wBase.filter (gfi_keep (gfi_processed .overwrite none))).filter
            (fun r => (gfi_resolve wEnv "key" r).isNone) = [] then none
          else some ((wBase.filter (gfi_keep (gfi_processed .overwrite none))).filter
            (fun r => (gfi_resolve wEnv "key" r).isNone))) ∧
      (res.faultyFile.isSome = true ↔
        ∃ r ∈ wBase, gfi_keep (gfi_processed .overwrite none) r = true ∧
          gfi_resolve wEnv "key" r = none) :=
  gfi_faulty_lifecycle wEnv "key" "" none .overwrite none wBase

/-! ## Basic lemmas about the filesystem model -/

/-- Characterization of `os.path.exists`. -/
theorem existsFS_iff (fs : FS) (p : FPath) :
    existsFS fs p = true ↔
      p ∈ fs.base ∨ p ∈ fs.dirs ∨ ∃ e ∈ fs.links, e.1 = p ∧ e.2 ∈ fs.base := by
  simp only [existsFS, List.any_eq_true, Bool.or_eq_true, Bool.and_eq_true,
    decide_eq_true_eq]
  tauto

/-- Characterization of `os.path.lexists`. -/
theorem lexistsFS_iff (fs : FS) (p : FPath) :
    lexistsFS fs p = true ↔
      p ∈ fs.base ∨ p ∈ fs.dirs ∨ ∃ e ∈ fs.links, e.1 = p := by
  simp only [lexistsFS, List.any_eq_true, Bool.or_eq_true, Bool.and_eq_true,
    decide_eq_true_eq]
  tauto

/-- The step `ensure_dir` keeps the real files. -/
theorem ensure_dir_base (fs : FS) (d : FPath) : (ensure_dir fs d).base = fs.base := by
  unfold ensure_dir
  split <;> rfl

/-- The step `ensure_dir` keeps the links. -/
theorem ensure_dir_links (fs : FS) (d : FPath) : (ensure_dir fs d).links = fs.links := by
  unfold ensure_dir
  split <;> rfl

/-- The step `ensure_link` keeps the real files. -/
theorem ensure_link_base (fs : FS) (t l : FPath) : (ensure_link fs t l).1.base = fs.base := by
  unfold ensure_link addLink removeLink
  split
  · rfl
  · split <;> rfl

/-- The step `ensure_link` keeps the directories. -/
theorem ensure_link_dirs (fs : FS) (t l : FPath) : (ensure_link fs t l).1.dirs = fs.dirs := by
  unfold ensure_link addLink removeLink
  split
  · rfl
  · split <;> rfl

/-- A directory whose path already exists is not recreated. -/
theorem ensure_dir_id (fs : FS) (d : FPath) (h : existsFS fs d = true) :
    ensure_dir fs d = fs := by
  unfold ensure_dir
  rw [if_pos h]

/-- After `ensure_dir`, the directory path exists. -/
theorem ensure_dir_self (fs : FS) (d : FPath) : existsFS (ensure_dir fs d) d = true := by
  by_cases h : existsFS fs d = true
  · rw [ensure_dir_id fs d h]
    exact h
  · unfold ensure_dir
    rw [if_neg h, existsFS_iff]
    exact Or.inr (Or.inl (List.mem_append.mpr (Or.inr (List.mem_singleton.mpr rfl))))

/-- A link whose path already resolves is skipped and nothing is created. -/
theorem ensure_link_skip (fs : FS) (t l : FPath) (h : existsFS fs l = true) :
    ensure_link fs t l = (fs, false) := by
  unfold ensure_link
  rw [if_pos h]

/-- A dangling entry at the link path is removed and the link recreated. -/
theorem ensure_link_make (fs : FS) (t l : FPath) (h : existsFS fs l = false)
    (h2 : lexistsFS fs l = true) :
    ensure_link fs t l = (addLink (removeLink fs l) l t, true) := by
  unfold ensure_link
  rw [if_neg (by simp [h]), if_pos h2]

/-- A fresh link path receives a new link. -/
theorem ensure_link_make2 (fs : FS) (t l : FPath) (h : existsFS fs l = false)
    (h2 : lexistsFS fs l = false) :
    ensure_link fs t l = (addLink fs l t, true) := by
  unfold ensure_link
  rw [if_neg (by simp [h]), if_neg (by simp [h2])]

/-- A link entry whose target is a real file survives `ensure_link`. -/
theorem link_persists_ensure_link (fs : FS) (t l : FPath) (e : FPath × FPath)
    (he : e ∈ fs.links) (ht : e.2 ∈ fs.base) :
    e ∈ (ensure_link fs t l).1.links := by
  by_cases h1 : existsFS fs l = true
  · rw [ensure_link_skip fs t l h1]
    exact he
  · have hne : e.1 ≠ l := fun hel =>
      h1 ((existsFS_iff fs l).mpr (Or.inr (Or.inr ⟨e, he, hel, ht⟩)))
    have hf : existsFS fs l = false := by simpa using h1
    by_cases h2 : lexistsFS fs l = true
    · rw [ensure_link_make fs t l hf h2]
      exact List.mem_append.mpr
        (Or.inl (List.mem_filter.mpr ⟨he, decide_eq_true hne⟩))
    · rw [ensure_link_make2 fs t l hf (by simpa using h2)]
      exact List.mem_append.mpr (Or.inl he)

/-- An existing path still exists after `ensure_dir`. -/
theorem existsFS_mono_dir (fs : FS) (d p : FPath) (h : existsFS fs p = true) :
    existsFS (ensure_dir fs d) p = true := by
  by_cases hd : existsFS fs d = true
  · rwa [ensure_dir_id fs d hd]
  · unfold ensure_dir
    rw [if_neg hd, existsFS_iff]
    rw [existsFS_iff] at h
    rcases h with h | h | h
    · exact Or.inl h
    · exact Or.inr (Or.inl (List.mem_append.mpr (Or.inl h)))
    · exact Or.inr (Or.inr h)

/-- An existing path still exists after `ensure_link`. -/
theorem existsFS_mono_link (fs : FS) (t l p : FPath) (h : existsFS fs p = true) :
    existsFS (ensure_link fs t l).1 p = true := by
  by_cases h1 : existsFS fs l = true
  · rw [ensure_link_skip fs t l h1]
    exact h
  · rw [existsFS_iff] at h
    rw [existsFS_iff]
    rcases h with hb | hd | ⟨e, he, hep, het⟩
    · exact Or.inl (by rw [ensure_link_base]; exact hb)
    · exact Or.inr (Or.inl (by rw [ensure_link_dirs]; exact hd))
    · exact Or.inr (Or.inr ⟨e, link_persists_ensure_link fs t l e he het,
        hep, by rw [ensure_link_base]; exact het⟩)

/-- After `ensure_link` with a real-file target, the link path resolves. -/
theorem ensure_link_resolves (fs : FS) (t l : FPath) (ht : t ∈ fs.base) :
    existsFS (ensure_link fs t l).1 l = true := by
  by_cases h1 : existsFS fs l = true
  · rw [ensure_link_skip fs t l h1]
    exact h1
  · have hf : existsFS fs l = false := by simpa using h1
    rw [existsFS_iff]
    refine Or.inr (Or.inr ⟨(l, t), ?_, rfl, by rw [ensure_link_base]; exact ht⟩)
    by_cases h2 : lexistsFS fs l = true
    · rw [ensure_link_make fs t l hf h2]
      exact List.mem_append.mpr (Or.inr (List.mem_singleton.mpr rfl))
    · rw [ensure_link_make2 fs t l hf (by simpa using h2)]
      exact List.mem_append.mpr (Or.inr (List.mem_singleton.mpr rfl))

/-! ## Lemmas about the `create_films_tree` loop -/

/-- One group step keeps the real files. -/
theorem cft_pair_base (t : FPath) (bn : String) (acc : FS × Nat) (d : String) :
    (cft_pair t bn acc d).1.base = acc.1.base := by
  show (ensure_link (ensure_dir acc.1 [d]) t [d, bn]).1.base = acc.1.base
  rw [ensure_link_base, ensure_dir_base]

/-- One group step preserves existing paths. -/
theorem cft_pair_mono (t : FPath) (bn : String) (acc : FS × Nat) (d : String)
    (p : FPath) (h : existsFS acc.1 p = true) :
    existsFS (cft_pair t bn acc d).1 p = true := by
  show existsFS (ensure_link (ensure_dir acc.1 [d]) t [d, bn]).1 p = true
  exact existsFS_mono_link _ _ _ _ (existsFS_mono_dir _ _ _ h)

/-- After one group step with a real-file target, the group directory and
the link path both exist. -/
theorem cft_pair_done (t : FPath) (bn : String) (acc : FS × Nat) (d : String)
    (ht : t ∈ acc.1.base) :
    existsFS (cft_pair t bn acc d).1 [d] = true ∧
      existsFS (cft_pair t bn acc d).1 [d, bn] = true := by
  constructor
  · show existsFS (ensure_link (ensure_dir acc.1 [d]) t [d, bn]).1 [d] = true
    exact existsFS_mono_link _ _ _ _ (ensure_dir_self _ _)
  · show existsFS (ensure_link (ensure_dir acc.1 [d]) t [d, bn]).1 [d, bn] = true
    refine ensure_link_resolves _ _ _ ?_
    rw [ensure_dir_base]
    exact ht

/-- A group step whose directory and link already exist does nothing. -/
theorem cft_pair_id (t : FPath) (bn : String) (acc : FS × Nat) (d : String)
    (h1 : existsFS acc.1 [d] = true) (h2 : existsFS acc.1 [d, bn] = true) :
    cft_pair t bn acc d = acc := by
  show ((ensure_link (ensure_dir acc.1 [d]) t [d, bn]).1,
      acc.2 + if (ensure_link (ensure_dir acc.1 [d]) t [d, bn]).2 then 1 else 0) = acc
  rw [ensure_dir_id _ _ h1, ensure_link_skip _ _ _ h2]
  simp

/-- The group loop of one row keeps the real files. -/
theorem cft_fold_base (t : FPath) (bn : String) (l : List String) (acc : FS × Nat) :
    (l.foldl (cft_pair t bn) acc).1.base = acc.1.base := by
  induction l generalizing acc with
  | nil => rfl
  | cons d l ih => rw [List.foldl_cons, ih, cft_pair_base]

/-- The group loop of one row preserves existing paths. -/
theorem cft_fold_mono (t : FPath) (bn : String) (l : List String) (acc : FS × Nat)
    (p : FPath) (h : existsFS acc.1 p = true) :
    existsFS ((l.foldl (cft_pair t bn) acc)).1 p = true := by
  induction l generalizing acc with
  | nil => exact h
  | cons d l ih =>
    rw [List.foldl_cons]
    exact ih _ (cft_pair_mono _ _ _ _ _ h)

/-- After the group loop, every group directory and link path of the
processed list exists. -/
theorem cft_fold_done (t : FPath) (bn : String) (l : List String) (acc : FS × Nat)
    (ht : t ∈ acc.1.base) :
    ∀ d ∈ l, existsFS ((l.foldl (cft_pair t bn) acc)).1 [d] = true ∧
      existsFS ((l.foldl (cft_pair t bn) acc)).1 [d, bn] = true := by
  induction l generalizing acc with
  | nil => exact fun d hd => absurd hd (List.not_mem_nil d)
  | cons d0 l ih =>
    intro d hd
    rw [List.foldl_cons]
    rcases List.mem_cons.mp hd with rfl | hd
    · have h := cft_pair_done t bn acc d ht
      exact ⟨cft_fold_mono _ _ _ _ _ h.1, cft_fold_mono _ _ _ _ _ h.2⟩
    · refine ih _ ?_ d hd
      rw [cft_pair_base]
      exact ht

/-- A group loop whose directories and links all exist does nothing. -/
theorem cft_fold_id (t : FPath) (bn : String) (l : List String) (acc : FS × Nat)
    (h : ∀ d ∈ l, existsFS acc.1 [d] = true ∧ existsFS acc.1 [d, bn] = true) :
    l.foldl (cft_pair t bn) acc = acc := by
  induction l with
  | nil => rfl
  | cons d l ih =>
    rw [List.foldl_cons,
      cft_pair_id t bn acc d (h d (List.mem_cons_self d l)).1 (h d (List.mem_cons_self d l)).2]
    exact ih (fun d2 hd2 => h d2 (List.mem_cons_of_mem _ hd2))

/-- One row keeps the real files. -/
theorem cft_row_base (ty : TreeType) (acc : FS × Nat) (r : TreeRow) :
    (cft_row ty acc r).1.base = acc.1.base :=
  cft_fold_base _ _ _ _

/-- One row preserves the completed state of any row. -/
theorem cft_row_preserves_done (ty : TreeType) (acc : FS × Nat) (r r0 : TreeRow)
    (h : treeDone acc.1 ty r0) : treeDone (cft_row ty acc r).1 ty r0 :=
  fun d hd => ⟨cft_fold_mono _ _ _ _ _ (h d hd).1, cft_fold_mono _ _ _ _ _ (h d hd).2⟩

/-- After its row is processed, a row with a real-file target is
completed. -/
theorem cft_row_done (ty : TreeType) (acc : FS × Nat) (r : TreeRow)
    (ht : r.path ∈ acc.1.base) : treeDone (cft_row ty acc r).1 ty r :=
  fun d hd => cft_fold_done _ _ _ _ ht d hd

/-- A row step on a completed row does nothing. -/
theorem cft_row_id (ty : TreeType) (acc : FS × Nat) (r : TreeRow)
    (h : treeDone acc.1 ty r) : cft_row ty acc r = acc :=
  cft_fold_id _ _ _ _ (fun d hd => h d hd)

/-- The whole run keeps the real files. -/
theorem cft_build_base (ty : TreeType) (rows : List TreeRow) (acc : FS × Nat) :
    (rows.foldl (cft_row ty) acc).1.base = acc.1.base := by
  induction rows generalizing acc with
  | nil => rfl
  | cons r rows ih => rw [List.foldl_cons, ih, cft_row_base]

/-- The whole run preserves the completed state of any row. -/
theorem cft_build_preserves_done (ty : TreeType) (rows : List TreeRow)
    (acc : FS × Nat) (r0 : TreeRow) (h : treeDone acc.1 ty r0) :
    treeDone ((rows.foldl (cft_row ty) acc)).1 ty r0 := by
  induction rows generalizing acc with
  | nil => exact h
  | cons r rows ih =>
    rw [List.foldl_cons]
    exact ih _ (cft_row_preserves_done ty acc r r0 h)

/-- After the whole run, every row with a real-file target is
completed. -/
theorem cft_build_done (ty : TreeType) (rows : List TreeRow) (acc : FS × Nat)
    (h : ∀ r ∈ rows, r.path ∈ acc.1.base) :
    ∀ r ∈ rows, treeDone ((rows.foldl (cft_row ty) acc)).1 ty r := by
  induction rows generalizing acc with
  | nil => exact fun r hr => absurd hr (List.not_mem_nil r)
  | cons r0 rows ih =>
    intro r hr
    rw [List.foldl_cons]
    rcases List.mem_cons.mp hr with rfl | hr
    · exact cft_build_preserves_done ty rows _ r
        (cft_row_done ty acc r (h r (List.mem_cons_self r rows)))
    · refine ih _ (fun r2 hr2 => ?_) r hr
      rw [cft_row_base]
      exact h r2 (List.mem_cons_of_mem _ hr2)

/-- A run over completed rows does nothing. -/
theorem cft_build_id (ty : TreeType) (rows : List TreeRow) (acc : FS × Nat)
    (h : ∀ r ∈ rows, treeDone acc.1 ty r) :
    rows.foldl (cft_row ty) acc = acc := by
  induction rows with
  | nil => rfl
  | cons r rows ih =>
    rw [List.foldl_cons, cft_row_id ty acc r (h r (List.mem_cons_self r rows))]
    exact ih (fun r2 hr2 => h r2 (List.mem_cons_of_mem _ hr2))

/-! ## C6 -/

/-- C6: link creation is idempotent.  A link path that already resolves is
skipped; a dangling entry at the link path is removed and the link
recreated; and when every film path of the index is a real file, a second
run of the builder on the unchanged index leaves the filesystem identical
and issues zero link creations. -/
theorem cft_link_idempotent (ty : TreeType) (fs : FS) (rows : List TreeRow)
    (h : ∀ r ∈ rows, r.path ∈ fs.base) :
    (∀ (g : FS) (t l : FPath), existsFS g l = true → ensure_link g t l = (g, false)) ∧
    (∀ (g : FS) (t l : FPath), existsFS g l = false → lexistsFS g l = true →
      ensure_link g t l = (addLink (removeLink g l) l t, true)) ∧
    create_films_tree ty (create_films_tree ty fs rows).1 rows
      = ((create_films_tree ty fs rows).1, 0) := by
  refine ⟨fun g t l hg => ensure_link_skip g t l hg,
    fun g t l hg hlg => ensure_link_make g t l hg hlg, ?_⟩
  have hdone : ∀ r ∈ rows, treeDone (create_films_tree ty fs rows).1 ty r :=
    cft_build_done ty rows (fs, 0) h
  exact cft_build_id ty rows ((create_films_tree ty fs rows).1, 0) hdone

/-- C6 witness: the idempotence theorem applied at a concrete filesystem
and index. -/
theorem cft_link_idempotent_witness :
    (∀ r ∈ wTreeRows, r.path ∈ wFS.base) ∧
    ((∀ (g : FS) (t l : FPath), existsFS g l = true → ensure_link g t l = (g, false)) ∧
    (∀ (g : FS) (t l : FPath), existsFS g l = false → lexistsFS g l = true →
      ensure_link g t l = (addLink (removeLink g l) l t, true)) ∧
    create_films_tree .genre (create_films_tree .genre wFS wTreeRows).1 wTreeRows
      = ((create_films_tree .genre wFS wTreeRows).1, 0)) :=
  ⟨by decide, cft_link_idempotent .genre wFS wTreeRows (by decide)⟩

/-! ## Lemmas for the per-group guarantee of `create_films_tree` -/

/-- The step `ensure_dir` on a group directory preserves the builder invariant. -/
theorem cftInv_ensure_dir (fs0 : FS) (rows : List TreeRow) (g : FS) (d : String)
    (h : cftInv fs0 rows g) : cftInv fs0 rows (ensure_dir g [d]) := by
  obtain ⟨hb, hd, hl⟩ := h
  by_cases hex : existsFS g [d] = true
  · rw [ensure_dir_id _ _ hex]
    exact ⟨hb, hd, hl⟩
  · unfold ensure_dir
    rw [if_neg hex]
    refine ⟨hb, ?_, hl⟩
    intro p hp
    rcases List.mem_append.mp hp with hp | hp
    · exact hd p hp
    · rw [List.mem_singleton.mp hp]
      rfl

/-- The step `ensure_link` for a produced (link path, target) pair preserves the
builder invariant. -/
theorem cftInv_ensure_link (fs0 : FS) (rows : List TreeRow) (g : FS)
    (r : TreeRow) (d : String) (hr : r ∈ rows) (h : cftInv fs0 rows g) :
    cftInv fs0 rows (ensure_link g r.path [d, basenameP r.path]).1 := by
  obtain ⟨hb, hd, hl⟩ := h
  by_cases hex : existsFS g [d, basenameP r.path] = true
  · rw [ensure_link_skip _ _ _ hex]
    exact ⟨hb, hd, hl⟩
  · have hf : existsFS g [d, basenameP r.path] = false := by simpa using hex
    by_cases hlex : lexistsFS g [d, basenameP r.path] = true
    · rw [ensure_link_make _ _ _ hf hlex]
      refine ⟨hb, hd, ?_⟩
      intro e he
      rcases List.mem_append.mp he with he | he
      · exact hl e (List.mem_filter.mp he).1
      · rw [List.mem_singleton.mp he]
        exact ⟨r, hr, d, rfl, rfl⟩
    · rw [ensure_link_make2 _ _ _ hf (by simpa using hlex)]
      refine ⟨hb, hd, ?_⟩
      intro e he
      rcases List.mem_append.mp he with he | he
      · exact hl e he
      · rw [List.mem_singleton.mp he]
        exact ⟨r, hr, d, rfl, rfl⟩

/-- A resolving link entry survives one group step. -/
theorem link_persists_cft_pair (t : FPath) (bn : String) (acc : FS × Nat)
    (d : String) (e : FPath × FPath) (he : e ∈ acc.1.links)
    (ht : e.2 ∈ acc.1.base) : e ∈ (cft_pair t bn acc d).1.links := by
  show e ∈ (ensure_link (ensure_dir acc.1 [d]) t [d, bn]).1.links
  refine link_persists_ensure_link _ _ _ _ ?_ ?_
  · rw [ensure_dir_links]
    exact he
  · rw [ensure_dir_base]
    exact ht

/-- A resolving link entry survives the group loop of one row. -/
theorem link_persists_cft_fold (t : FPath) (bn : String) (l : List String)
    (acc : FS × Nat) (e : FPath × FPath) (he : e ∈ acc.1.links)
    (ht : e.2 ∈ acc.1.base) : e ∈ ((l.foldl (cft_pair t bn) acc)).1.links := by
  induction l generalizing acc with
  | nil => exact he
  | cons d l ih =>
    rw [List.foldl_cons]
    refine ih _ (link_persists_cft_pair _ _ _ _ _ he ht) ?_
    rw [cft_pair_base]
    exact ht

/-- A resolving link entry survives one row. -/
theorem link_persists_cft_row (ty : TreeType) (acc : FS × Nat) (r : TreeRow)
    (e : FPath × FPath) (he : e ∈ acc.1.links) (ht : e.2 ∈ acc.1.base) :
    e ∈ (cft_row ty acc r).1.links :=
  link_persists_cft_fold _ _ _ _ _ he ht

/-- A resolving link entry survives the whole run. -/
theorem link_persists_cft_build (ty : TreeType) (rows : List TreeRow)
    (acc : FS × Nat) (e : FPath × FPath) (he : e ∈ acc.1.links)
    (ht : e.2 ∈ acc.1.base) : e ∈ ((rows.foldl (cft_row ty) acc)).1.links := by
  induction rows generalizing acc with
  | nil => exact he
  | cons r rows ih =>
    rw [List.foldl_cons]
    refine ih _ (link_persists_cft_row _ _ _ _ he ht) ?_
    rw [cft_row_base]
    exact ht

/-- An existing path still exists after one row. -/
theorem existsFS_mono_row (ty : TreeType) (acc : FS × Nat) (r : TreeRow)
    (p : FPath) (h : existsFS acc.1 p = true) :
    existsFS (cft_row ty acc r).1 p = true :=
  cft_fold_mono _ _ _ _ _ h

/-- An existing path still exists after the whole run. -/
theorem existsFS_mono_build (ty : TreeType) (rows : List TreeRow)
    (acc : FS × Nat) (p : FPath) (h : existsFS acc.1 p = true) :
    existsFS ((rows.foldl (cft_row ty) acc)).1 p = true := by
  induction rows generalizing acc with
  | nil => exact h
  | cons r rows ih =>
    rw [List.foldl_cons]
    exact ih _ (existsFS_mono_row _ _ _ _ h)

/-- One group step under the builder invariant: the invariant is kept, the
group directory exists afterwards, and the produced link entry is in
place, targeting the path of the processed row. -/
theorem cft_pair_c8 (fs0 : FS) (rows : List TreeRow) (r : TreeRow) (d : String)
    (acc : FS × Nat) (hr : r ∈ rows) (hInv : cftInv fs0 rows acc.1)
    (_hbase : r.path ∈ fs0.base)
    (hfree : [d, basenameP r.path] ∉ fs0.base)
    (hfun : ∀ r2 ∈ rows, basenameP r2.path = basenameP r.path → r2.path = r.path) :
    cftInv fs0 rows (cft_pair r.path (basenameP r.path) acc d).1 ∧
    existsFS (cft_pair r.path (basenameP r.path) acc d).1 [d] = true ∧
    ([d, basenameP r.path], r.path) ∈ (cft_pair r.path (basenameP r.path) acc d).1.links := by
  have hInv1 : cftInv fs0 rows (ensure_dir acc.1 [d]) :=
    cftInv_ensure_dir fs0 rows acc.1 d hInv
  have hd1 : existsFS (ensure_dir acc.1 [d]) [d] = true := ensure_dir_self _ _
  have hshow : (cft_pair r.path (basenameP r.path) acc d).1
      = (ensure_link (ensure_dir acc.1 [d]) r.path [d, basenameP r.path]).1 := rfl
  rw [hshow]
  by_cases hex : existsFS (ensure_dir acc.1 [d]) [d, basenameP r.path] = true
  · rw [ensure_link_skip _ _ _ hex]
    refine ⟨hInv1, hd1, ?_⟩
    rw [existsFS_iff] at hex
    rcases hex with hb | hdm | ⟨e, he, hep, het⟩
    · rw [hInv1.1] at hb
      exact absurd hb hfree
    · have hlen := hInv1.2.1 _ hdm
      simp at hlen
    · obtain ⟨r2, hr2, d2, he1, he2⟩ := hInv1.2.2 e he
      have h12 : ([d, basenameP r.path] : FPath) = [d2, basenameP r2.path] := by
        rw [← hep, he1]
      injection h12 with hA hB
      injection hB with hC hD
      have hpath : r2.path = r.path := hfun r2 hr2 hC.symm
      have he2p : e.2 = r.path := he2.trans hpath
      rw [← hep, ← he2p]
      exact he
  · have hf : existsFS (ensure_dir acc.1 [d]) [d, basenameP r.path] = false := by
      simpa using hex
    refine ⟨cftInv_ensure_link fs0 rows _ r d hr hInv1,
      existsFS_mono_link _ _ _ _ hd1, ?_⟩
    by_cases hlex : lexistsFS (ensure_dir acc.1 [d]) [d, basenameP r.path] = true
    · rw [ensure_link_make _ _ _ hf hlex]
      exact List.mem_append.mpr (Or.inr (List.mem_singleton.mpr rfl))
    · rw [ensure_link_make2 _ _ _ hf (by simpa using hlex)]
      exact List.mem_append.mpr (Or.inr (List.mem_singleton.mpr rfl))

/-- The group loop of one row under the builder invariant: the invariant
is kept and every group of the processed list has its directory and its
link entry in place. -/
theorem cft_fold_c8 (fs0 : FS) (rows : List TreeRow) (r : TreeRow)
    (l : List String) (acc : FS × Nat) (hr : r ∈ rows)
    (hInv : cftInv fs0 rows acc.1) (hbase : r.path ∈ fs0.base)
    (hfree : ∀ d ∈ l, [d, basenameP r.path] ∉ fs0.base)
    (hfun : ∀ r2 ∈ rows, basenameP r2.path = basenameP r.path → r2.path = r.path) :
    cftInv fs0 rows ((l.foldl (cft_pair r.path (basenameP r.path)) acc)).1 ∧
    ∀ d ∈ l, existsFS ((l.foldl (cft_pair r.path (basenameP r.path)) acc)).1 [d] = true ∧
      ([d, basenameP r.path], r.path)
        ∈ ((l.foldl (cft_pair r.path (basenameP r.path)) acc)).1.links := by
  induction l generalizing acc with
  | nil => exact ⟨hInv, fun d hd => absurd hd (List.not_mem_nil d)⟩
  | cons d0 l ih =>
    rw [List.foldl_cons]
    have hstep := cft_pair_c8 fs0 rows r d0 acc hr hInv hbase
      (hfree d0 (List.mem_cons_self d0 l)) hfun
    obtain ⟨hInv2, hd2, hmem2⟩ := hstep
    have htarget2 : r.path ∈ (cft_pair r.path (basenameP r.path) acc d0).1.base := by
      rw [hInv2.1]
      exact hbase
    obtain ⟨hInvR, hAll⟩ := ih _ hInv2 (fun d hd => hfree d (List.mem_cons_of_mem _ hd))
    refine ⟨hInvR, ?_⟩
    intro d hd
    rcases List.mem_cons.mp hd with rfl | hd
    · exact ⟨cft_fold_mono _ _ _ _ _ hd2,
        link_persists_cft_fold _ _ _ _ _ hmem2 htarget2⟩
    · exact hAll d hd

/-- One row under the builder invariant. -/
theorem cft_row_c8 (fs0 : FS) (rows : List TreeRow) (ty : TreeType) (r : TreeRow)
    (acc : FS × Nat) (hr : r ∈ rows) (hInv : cftInv fs0 rows acc.1)
    (hbase : r.path ∈ fs0.base)
    (hfree : ∀ d ∈ treeGroups ty r, [d, basenameP r.path] ∉ fs0.base)
    (hfun : ∀ r2 ∈ rows, basenameP r2.path = basenameP r.path → r2.path = r.path) :
    cftInv fs0 rows (cft_row ty acc r).1 ∧
    ∀ d ∈ treeGroups ty r, existsFS (cft_row ty acc r).1 [d] = true ∧
      ([d, basenameP r.path], r.path) ∈ (cft_row ty acc r).1.links :=
  cft_fold_c8 fs0 rows r (treeGroups ty r) acc hr hInv hbase hfree hfun

/-- The run over any selection of rows under the builder invariant. -/
theorem cft_build_c8 (fs0 : FS) (ty : TreeType) (rows : List TreeRow)
    (hbaseAll : ∀ r ∈ rows, r.path ∈ fs0.base)
    (hfreeAll : ∀ r ∈ rows, ∀ d ∈ treeGroups ty r, [d, basenameP r.path] ∉ fs0.base)
    (hfunAll : ∀ r1 ∈ rows, ∀ r2 ∈ rows,
      basenameP r2.path = basenameP r1.path → r2.path = r1.path) :
    ∀ (rows2 : List TreeRow), (∀ r ∈ rows2, r ∈ rows) →
      ∀ acc : FS × Nat, cftInv fs0 rows acc.1 →
      cftInv fs0 rows ((rows2.foldl (cft_row ty) acc)).1 ∧
      ∀ r ∈ rows2, ∀ d ∈ treeGroups ty r,
        existsFS ((rows2.foldl (cft_row ty) acc)).1 [d] = true ∧
        ([d, basenameP r.path], r.path) ∈ ((rows2.foldl (cft_row ty) acc)).1.links := by
  intro rows2
  induction rows2 with
  | nil => exact fun _ acc hInv => ⟨hInv, fun r hr => absurd hr (List.not_mem_nil r)⟩
  | cons r0 rows2 ih =>
    intro hsub acc hInv
    rw [List.foldl_cons]
    have hr0 : r0 ∈ rows := hsub r0 (List.mem_cons_self r0 rows2)
    have hstep := cft_row_c8 fs0 rows ty r0 acc hr0 hInv (hbaseAll r0 hr0)
      (hfreeAll r0 hr0) (hfunAll r0 hr0)
    obtain ⟨hInv2, hAll0⟩ := hstep
    have htarget2 : r0.path ∈ (cft_row ty acc r0).1.base := by
      rw [hInv2.1]
      exact hbaseAll r0 hr0
    obtain ⟨hInvR, hAllRest⟩ :=
      ih (fun r hr => hsub r (List.mem_cons_of_mem _ hr)) _ hInv2
    refine ⟨hInvR, ?_⟩
    intro r hr
    rcases List.mem_cons.mp hr with rfl | hr
    · intro d hd
      exact ⟨existsFS_mono_build _ _ _ _ (hAll0 d hd).1,
        link_persists_cft_build _ _ _ _ (hAll0 d hd).2 htarget2⟩
    · exact hAllRest r hr

/-! ## C8 -/

/-- C8: on a fresh tree root (no pre-existing links or directories), with
every film path a real file, no real file occupying a produced link path,
and base filenames identifying film paths uniquely, `create_films_tree`
splits the selected metadata field on the separator and, for every
(group value, film) pair, leaves a directory named after the group value
and a link in it named after the base filename of the film targeting the
film path -- a film with genre field `Drama, Romance` gets one link under
each of the two genre directories, both targeting the same file. -/
theorem cft_group_links (ty : TreeType) (fs : FS) (rows : List TreeRow)
    (hlinks : fs.links = []) (hdirs : fs.dirs = [])
    (hbase : ∀ r ∈ rows, r.path ∈ fs.base)
    (hfree : ∀ r ∈ rows, ∀ d ∈ treeGroups ty r, [d, basenameP r.path] ∉ fs.base)
    (hfun : ∀ r1 ∈ rows, ∀ r2 ∈ rows,
      basenameP r2.path = basenameP r1.path → r2.path = r1.path) :
    ∀ r ∈ rows, ∀ d ∈ treeGroups ty r,
      existsFS (create_films_tree ty fs rows).1 [d] = true ∧
      ([d, basenameP r.path], r.path) ∈ (create_films_tree ty fs rows).1.links := by
  have hInv0 : cftInv fs rows fs := by
    refine ⟨rfl, ?_, ?_⟩
    · intro p hp
      rw [hdirs] at hp
      exact absurd hp (List.not_mem_nil p)
    · intro e he
      rw [hlinks] at he
      exact absurd he (List.not_mem_nil e)
  exact (cft_build_c8 fs ty rows hbase hfree hfun rows (fun r hr => hr) (fs, 0) hInv0).2

/-- C8 witness: the per-group guarantee applied to the Titanic scenario
with genre field `Drama, Romance`. -/
theorem cft_group_links_witness :
    wFS.links = [] ∧ wFS.dirs = [] ∧
    (∀ r ∈ wTreeRows, r.path ∈ wFS.base) ∧
    (∀ r ∈ wTreeRows, ∀ d ∈ treeGroups .genre r, [d, basenameP r.path] ∉ wFS.base) ∧
    (∀ r1 ∈ wTreeRows, ∀ r2 ∈ wTreeRows,
      basenameP r2.path = basenameP r1.path → r2.path = r1.path) ∧
    (∀ r ∈ wTreeRows, ∀ d ∈ treeGroups .genre r,
      existsFS (create_films_tree .genre wFS wTreeRows).1 [d] = true ∧
      ([d, basenameP r.path], r.path) ∈ (create_films_tree .genre wFS wTreeRows).1.links) :=
  ⟨rfl, rfl, by decide, by decide, by decide,
    cft_group_links .genre wFS wTreeRows rfl rfl (by decide) (by decide) (by decide)⟩

/-! ## Lemmas for `populate_actors_tree` -/

/-- A path distinct from the ensured directory stays nonexistent. -/
theorem existsFS_ensure_dir_ne (fs : FS) (dd p : FPath) (hne : p ≠ dd)
    (h : existsFS fs p = false) : existsFS (ensure_dir fs dd) p = false := by
  by_cases hex : existsFS fs dd = true
  · rw [ensure_dir_id _ _ hex]
    exact h
  · unfold ensure_dir
    rw [if_neg hex]
    cases hc : existsFS { fs with dirs := fs.dirs ++ [dd] } p
    · rfl
    · exfalso
      rw [existsFS_iff] at hc
      rcases hc with hb | hd2 | ⟨e, he, hep, het⟩
      · exact absurd ((existsFS_iff fs p).mpr (Or.inl hb)) (by simp [h])
      · rcases List.mem_append.mp hd2 with hd2 | hd2
        · exact absurd ((existsFS_iff fs p).mpr (Or.inr (Or.inl hd2))) (by simp [h])
        · exact hne (List.mem_singleton.mp hd2)
      · exact absurd ((existsFS_iff fs p).mpr (Or.inr (Or.inr ⟨e, he, hep, het⟩)))
          (by simp [h])

/-- A created link entry of `ensure_link` on a nonexistent link path is in
the resulting link set. -/
theorem ensure_link_mem (fs : FS) (t l : FPath) (h : existsFS fs l = false) :
    (l, t) ∈ (ensure_link fs t l).1.links := by
  by_cases h2 : lexistsFS fs l = true
  · rw [ensure_link_make _ _ _ h h2]
    exact List.mem_append.mpr (Or.inr (List.mem_singleton.mpr rfl))
  · rw [ensure_link_make2 _ _ _ h (by simpa using h2)]
    exact List.mem_append.mpr (Or.inr (List.mem_singleton.mpr rfl))

/-! ## C9 -/

/-- C9: the actor cross-reference looks a filmography identity up in the
base index by exact (year, title) equality (a Python dict keyed by the
pair, so a later base-index row with the same identity wins); an unmatched
entry leaves the run state untouched -- nothing is printed and nothing is
recorded; a matched entry ensures the actor directory and a link in it
named from the base filename of the film, with the bracketed rating
prepended when the include-ratings option is set, targeting the film
path. -/
theorem pat_lookup_and_links (incl : Bool) (bs : List BaseRow)
    (pof : String → FPath) (an : String) (acc : FS × Nat) (e : FilmographyEntry) :
    ((films_dict_lookup bs e.fyear e.fname).isSome = true ↔
      ∃ r ∈ bs, r.year = e.fyear ∧ r.title = e.fname) ∧
    (films_dict_lookup bs e.fyear e.fname = none →
      pat_step incl bs pof an acc e = acc) ∧
    (∀ p, films_dict_lookup bs e.fyear e.fname = some p →
      pat_step incl bs pof an acc e =
        ((ensure_link (ensure_dir acc.1 [an]) (pof p)
            [an, if incl then "[" ++ e.rating ++ "] " ++ basenameP (pof p)
              else basenameP (pof p)]).1,
          acc.2 + if (ensure_link (ensure_dir acc.1 [an]) (pof p)
            [an, if incl then "[" ++ e.rating ++ "] " ++ basenameP (pof p)
              else basenameP (pof p)]).2 then 1 else 0)) ∧
    (∀ p, films_dict_lookup bs e.fyear e.fname = some p →
      existsFS acc.1 [an, if incl then "[" ++ e.rating ++ "] " ++ basenameP (pof p)
          else basenameP (pof p)] = false →
      ([an, if incl then "[" ++ e.rating ++ "] " ++ basenameP (pof p)
          else basenameP (pof p)], pof p)
        ∈ (pat_step incl bs pof an acc e).1.links) ∧
    (∀ es : List FilmographyEntry,
      (∀ e2 ∈ es, films_dict_lookup bs e2.fyear e2.fname = none) →
      pat_actor incl bs pof acc an es = acc) := by
  refine ⟨?_, ?_, ?_, ?_, ?_⟩
  · simp only [films_dict_lookup, Option.isSome_map', List.find?_isSome,
      List.mem_reverse, Bool.and_eq_true, decide_eq_true_eq]
  · intro h
    unfold pat_step
    rw [h]
  · intro p h
    unfold pat_step
    rw [h]
  · intro p h hfresh
    have hne : ([an, if incl then "[" ++ e.rating ++ "] " ++ basenameP (pof p)
        else basenameP (pof p)] : FPath) ≠ [an] := by simp
    have hfresh2 := existsFS_ensure_dir_ne acc.1 [an] _ hne hfresh
    unfold pat_step
    rw [h]
    exact ensure_link_mem _ _ _ hfresh2
  · intro es hes
    unfold pat_actor
    induction es with
    | nil => rfl
    | cons e2 es ih =>
      rw [List.foldl_cons]
      have hskip : pat_step incl bs pof an acc e2 = acc := by
        unfold pat_step
        rw [hes e2 (List.mem_cons_self e2 es)]
      rw [hskip]
      exact ih (fun e3 he3 => hes e3 (List.mem_cons_of_mem _ he3))

/-- C9 witness: the cross-reference theorem applied at the Titanic
sample (one matched and one unmatched filmography entry). -/
theorem pat_lookup_and_links_witness :
    ((films_dict_lookup wBase "1997" "Titanic").isSome = true ↔
      ∃ r ∈ wBase, r.year = "1997" ∧ r.title = "Titanic") ∧
    (films_dict_lookup wBase "1997" "Titanic" = none →
      pat_step true wBase wPathOf "Kate Winslet" (wFS, 0) ⟨"7.9", "1997", "Titanic"⟩
        = (wFS, 0)) ∧
    (∀ p, films_dict_lookup wBase "1997" "Titanic" = some p →
      pat_step true wBase wPathOf "Kate Winslet" (wFS, 0) ⟨"7.9", "1997", "Titanic"⟩ =
        ((ensure_link (ensure_dir (wFS, 0).1 ["Kate Winslet"]) (wPathOf p)
            ["Kate Winslet", if true then "[" ++ "7.9" ++ "] " ++ basenameP (wPathOf p)
              else basenameP (wPathOf p)]).1,
          (wFS, 0).2 + if (ensure_link (ensure_dir (wFS, 0).1 ["Kate Winslet"]) (wPathOf p)
            ["Kate Winslet", if true then "[" ++ "7.9" ++ "] " ++ basenameP (wPathOf p)
              else basenameP (wPathOf p)]).2 then 1 else 0)) ∧
    (∀ p, films_dict_lookup wBase "1997" "Titanic" = some p →
      existsFS (wFS, 0).1 ["Kate Winslet",
          if true then "[" ++ "7.9" ++ "] " ++ basenameP (wPathOf p)
            else basenameP (wPathOf p)] = false →
      (["Kate Winslet", if true then "[" ++ "7.9" ++ "] " ++ basenameP (wPathOf p)
          else basenameP (wPathOf p)], wPathOf p)
        ∈ (pat_step true wBase wPathOf "Kate Winslet" (wFS, 0)
            ⟨"7.9", "1997", "Titanic"⟩).1.links) ∧
    (∀ es : List FilmographyEntry,
      (∀ e2 ∈ es, films_dict_lookup wBase e2.fyear e2.fname = none) →
      pat_actor true wBase wPathOf (wFS, 0) "Kate Winslet" es = (wFS, 0)) :=
  pat_lookup_and_links true wBase wPathOf "Kate Winslet" (wFS, 0) ⟨"7.9", "1997", "Titanic"⟩

/-! ## Lemmas about the `generate_base_index` loop -/

/-- Step equation: unparsed file. -/
theorem gbi_step_none (parse : StemParse) (b : Bool) (st : GbiState) (f : ScannedFile)
    (hp : parse f.stem = none) :
    gbi_step parse b st f = { st with unparsed := st.unparsed ++ [f.abspath] } := by
  simp only [gbi_step, hp]

/-- Step equation: duplicate identity with dedup enabled. -/
theorem gbi_step_dup (parse : StemParse) (st : GbiState) (f : ScannedFile)
    (fname0 fyear : String) (hp : parse f.stem = some (fname0, fyear))
    (hdup : (pyRStrip fname0, fyear) ∈ st.films_set) :
    gbi_step parse true st f = { st with skipped := st.skipped ++ [f.abspath] } := by
  simp only [gbi_step, hp]
  rw [if_pos (by simp [hdup])]

/-- Step equation: fresh identity with dedup enabled. -/
theorem gbi_step_new (parse : StemParse) (st : GbiState) (f : ScannedFile)
    (fname0 fyear : String) (hp : parse f.stem = some (fname0, fyear))
    (hdup : (pyRStrip fname0, fyear) ∉ st.films_set) :
    gbi_step parse true st f =
      { st with
        rows := st.rows ++ [⟨pyRStrip fname0, fyear, f.abspath⟩],
        written := st.written ++
          [pyRStrip fname0 ++ "\t" ++ fyear ++ "\t" ++ f.abspath ++ "\n"],
        films_set := st.films_set ++ [(pyRStrip fname0, fyear)],
        numfilms := st.numfilms + 1 } := by
  simp only [gbi_step, hp]
  rw [if_neg (by simp [hdup])]
  simp

/-- Step equation: parsed file with dedup disabled. -/
theorem gbi_step_write_nodedup (parse : StemParse) (st : GbiState) (f : ScannedFile)
    (fname0 fyear : String) (hp : parse f.stem = some (fname0, fyear)) :
    gbi_step parse false st f =
      { st with
        rows := st.rows ++ [⟨pyRStrip fname0, fyear, f.abspath⟩],
        written := st.written ++
          [pyRStrip fname0 ++ "\t" ++ fyear ++ "\t" ++ f.abspath ++ "\n"],
        numfilms := st.numfilms + 1 } := by
  simp only [gbi_step, hp]
  rw [if_neg (by simp)]
  simp

/-- The dedup invariant holds initially. -/
theorem gbi_inv_init (parse : StemParse) :
    GbiInv parse [] ⟨[], [], [], [], [], 0⟩ := by
  simp [GbiInv]

/-- The dedup invariant is preserved by one loop iteration. -/
theorem gbi_inv_step (parse : StemParse) (ps : List ScannedFile) (st : GbiState)
    (f : ScannedFile) (h : GbiInv parse ps st) :
    GbiInv parse (ps ++ [f]) (gbi_step parse true st f) := by
  obtain ⟨hset, hnodup, hfirst, hall, hcount⟩ := h
  cases hp : parse f.stem with
  | none =>
    rw [gbi_step_none parse true st f hp]
    refine ⟨hset, hnodup, ?_, ?_, ?_⟩
    · intro r hr
      obtain ⟨g, hg, hgp⟩ := hfirst r hr
      exact ⟨g, by rw [List.find?_append, hg]; rfl, hgp⟩
    · intro g hg i hi
      rcases List.mem_append.mp hg with hg | hg
      · exact hall g hg i hi
      · rw [List.mem_singleton.mp hg] at hi
        unfold parseIdOf at hi
        rw [hp] at hi
        exact absurd hi (by simp)
    · rw [List.filter_append]
      simpa [hp] using hcount
  | some q =>
    obtain ⟨fname0, fyear⟩ := q
    by_cases hdup : (pyRStrip fname0, fyear) ∈ st.films_set
    · rw [gbi_step_dup parse st f fname0 fyear hp hdup]
      refine ⟨hset, hnodup, ?_, ?_, ?_⟩
      · intro r hr
        obtain ⟨g, hg, hgp⟩ := hfirst r hr
        exact ⟨g, by rw [List.find?_append, hg]; rfl, hgp⟩
      · intro g hg i hi
        rcases List.mem_append.mp hg with hg | hg
        · exact hall g hg i hi
        · rw [List.mem_singleton.mp hg] at hi
          unfold parseIdOf at hi
          rw [hp] at hi
          simp only [Option.map_some', Option.some.injEq] at hi
          rw [← hi]
          exact hdup
      · rw [List.filter_append]
        simp only [List.length_append, List.filter_cons, List.filter_nil, hp,
          Option.isSome_some, if_true, List.length_cons, List.length_nil]
        omega
    · rw [gbi_step_new parse st f fname0 fyear hp hdup]
      have hni : (pyRStrip fname0, fyear) ∉ st.rows.map (fun r => (r.title, r.year)) :=
        fun hm => hdup ((hset _).mpr hm)
      refine ⟨?_, ?_, ?_, ?_, ?_⟩
      · intro i
        rw [List.mem_append, List.mem_singleton, List.map_append, List.mem_append]
        simp only [List.map_cons, List.map_nil, List.mem_singleton]
        exact or_congr (hset i) Iff.rfl
      · rw [List.map_append]
        simp only [List.map_cons, List.map_nil]
        simp [List.nodup_append, hnodup, hni]
      · intro r hr
        rcases List.mem_append.mp hr with hr | hr
        · obtain ⟨g, hg, hgp⟩ := hfirst r hr
          exact ⟨g, by rw [List.find?_append, hg]; rfl, hgp⟩
        · rw [List.mem_singleton.mp hr]
          have hnone : ps.find?
              (fun g => decide (parseIdOf parse g = some (pyRStrip fname0, fyear)))
              = none := by
            rw [List.find?_eq_none]
            intro g hg
            simp only [decide_eq_true_eq]
            intro hgi
            exact hdup (hall g hg _ hgi)
          have key : (ps ++ [f]).find?
              (fun g => decide (parseIdOf parse g = some (pyRStrip fname0, fyear)))
              = some f := by
            rw [List.find?_append, hnone]
            show ([f].find?
              (fun g => decide (parseIdOf parse g = some (pyRStrip fname0, fyear))))
              = some f
            rw [List.find?_cons_of_pos _ (by simp [parseIdOf, hp])]
          exact ⟨f, key, rfl⟩
      · intro g hg i hi
        rcases List.mem_append.mp hg with hg | hg
        · exact List.mem_append.mpr (Or.inl (hall g hg i hi))
        · rw [List.mem_singleton.mp hg] at hi
          unfold parseIdOf at hi
          rw [hp] at hi
          simp only [Option.map_some', Option.some.injEq] at hi
          exact List.mem_append.mpr (Or.inr (List.mem_singleton.mpr hi.symm))
      · rw [List.filter_append]
        simp only [List.length_append, List.filter_cons, List.filter_nil, hp,
          Option.isSome_some, if_true, List.length_cons, List.length_nil]
        omega

/-- The dedup invariant is preserved by the whole loop. -/
theorem gbi_inv_fold (parse : StemParse) (fs ps : List ScannedFile) (st : GbiState)
    (h : GbiInv parse ps st) :
    GbiInv parse (ps ++ fs) (fs.foldl (gbi_step parse true) st) := by
  induction fs generalizing ps st with
  | nil => simpa using h
  | cons f fs ih =>
    rw [List.foldl_cons]
    have hstep := ih (ps ++ [f]) _ (gbi_inv_step parse ps st f h)
    rwa [List.append_assoc] at hstep

/-- One iteration keeps the count equal to the number of written rows. -/
theorem gbi_step_numfilms (parse : StemParse) (b : Bool) (st : GbiState)
    (f : ScannedFile) (h : st.numfilms = st.rows.length) :
    (gbi_step parse b st f).numfilms = (gbi_step parse b st f).rows.length := by
  unfold gbi_step
  cases hp : parse f.stem with
  | none => exact h
  | some q =>
    obtain ⟨fname0, fyear⟩ := q
    simp only []
    split
    · exact h
    · simp [h]

/-- One iteration keeps the written lines equal to the rendered rows. -/
theorem gbi_step_written (parse : StemParse) (b : Bool) (st : GbiState)
    (f : ScannedFile) (h : st.written = st.rows.map renderBaseLine) :
    (gbi_step parse b st f).written = (gbi_step parse b st f).rows.map renderBaseLine := by
  unfold gbi_step
  cases hp : parse f.stem with
  | none => exact h
  | some q =>
    obtain ⟨fname0, fyear⟩ := q
    simp only []
    split
    · exact h
    · simp [h, renderBaseLine]

/-- The whole loop keeps the count equal to the number of rows. -/
theorem gbi_fold_numfilms (parse : StemParse) (b : Bool) (fs : List ScannedFile)
    (st : GbiState) (h : st.numfilms = st.rows.length) :
    (fs.foldl (gbi_step parse b) st).numfilms
      = (fs.foldl (gbi_step parse b) st).rows.length := by
  induction fs generalizing st with
  | nil => exact h
  | cons f fs ih =>
    rw [List.foldl_cons]
    exact ih _ (gbi_step_numfilms parse b st f h)

/-- The whole loop keeps the written lines equal to the rendered rows. -/
theorem gbi_fold_written (parse : StemParse) (b : Bool) (fs : List ScannedFile)
    (st : GbiState) (h : st.written = st.rows.map renderBaseLine) :
    (fs.foldl (gbi_step parse b) st).written
      = (fs.foldl (gbi_step parse b) st).rows.map renderBaseLine := by
  induction fs generalizing st with
  | nil => exact h
  | cons f fs ih =>
    rw [List.foldl_cons]
    exact ih _ (gbi_step_written parse b st f h)

/-- Without dedup, every parsed file contributes exactly one row. -/
theorem gbi_fold_count_nodedup (parse : StemParse) (fs : List ScannedFile)
    (st : GbiState) :
    (fs.foldl (gbi_step parse false) st).rows.length
      = st.rows.length + (fs.filter (fun f => (parse f.stem).isSome)).length := by
  induction fs generalizing st with
  | nil => simp
  | cons f fs ih =>
    rw [List.foldl_cons, ih]
    cases hp : parse f.stem with
    | none =>
      rw [gbi_step_none parse false st f hp]
      simp [List.filter_cons, hp]
    | some q =>
      obtain ⟨fname0, fyear⟩ := q
      rw [gbi_step_write_nodedup parse st f fname0 fyear hp]
      simp only [List.filter_cons, hp, Option.isSome_some, if_true,
        List.length_append, List.length_cons, List.length_nil]
      omega

/-! ## C7 -/

/-- C7: with dedup enabled, `generate_base_index` writes only the
first-encountered file per (title, year) identity -- the resulting rows
have pairwise distinct identities, each row carries the path of the first
matching file of its identity, and rows plus reported duplicates account
exactly for the pattern-matching files; with dedup disabled every
pattern-matching file yields a row; the reported count equals the number
of rows and each written line is `title<TAB>year<TAB>path` with a trailing
newline. -/
theorem gbi_dedup_rows (parse : StemParse) (files : List ScannedFile) :
    ((gbi_scan parse true files).rows.map (fun r => (r.title, r.year))).Nodup ∧
    (∀ r ∈ (gbi_scan parse true files).rows,
      ∃ f, files.find? (fun g => decide (parseIdOf parse g = some (r.title, r.year)))
          = some f ∧ f.abspath = r.path) ∧
    ((gbi_scan parse true files).rows.length + (gbi_scan parse true files).skipped.length
      = (files.filter (fun f => (parse f.stem).isSome)).length) ∧
    ((gbi_scan parse false files).rows.length
      = (files.filter (fun f => (parse f.stem).isSome)).length) ∧
    (∀ b, (gbi_scan parse b files).numfilms = (gbi_scan parse b files).rows.length) ∧
    (∀ b, (gbi_scan parse b files).written
      = (gbi_scan parse b files).rows.map renderBaseLine) := by
  have hinv := gbi_inv_fold parse files [] _ (gbi_inv_init parse)
  rw [List.nil_append] at hinv
  obtain ⟨hset, hnodup, hfirst, hall, hcount⟩ := hinv
  refine ⟨hnodup, hfirst, hcount, ?_, ?_, ?_⟩
  · simpa using gbi_fold_count_nodedup parse files ⟨[], [], [], [], [], 0⟩
  · exact fun b => gbi_fold_numfilms parse b files ⟨[], [], [], [], [], 0⟩ rfl
  · exact fun b => gbi_fold_written parse b files ⟨[], [], [], [], [], 0⟩ rfl

/-- C7 witness: the dedup theorem applied to a concrete file list with a
duplicate identity and an unparsed file. -/
theorem gbi_dedup_rows_witness :
    ((gbi_scan wParse true wFiles).rows.map (fun r => (r.title, r.year))).Nodup ∧
    (∀ r ∈ (gbi_scan wParse true wFiles).rows,
      ∃ f, wFiles.find? (fun g => decide (parseIdOf wParse g = some (r.title, r.year)))
          = some f ∧ f.abspath = r.path) ∧
    ((gbi_scan wParse true wFiles).rows.length + (gbi_scan wParse true wFiles).skipped.length
      = (wFiles.filter (fun f => (wParse f.stem).isSome)).length) ∧
    ((gbi_scan wParse false wFiles).rows.length
      = (wFiles.filter (fun f => (wParse f.stem).isSome)).length) ∧
    (∀ b, (gbi_scan wParse b wFiles).numfilms = (gbi_scan wParse b wFiles).rows.length) ∧
    (∀ b, (gbi_scan wParse b wFiles).written
      = (gbi_scan wParse b wFiles).rows.map renderBaseLine) :=
  gbi_dedup_rows wParse wFiles

end FilmsOrganizer
